import Mathlib

/-!
Verification of the autotyper core (src/core/utils.ts, src/core/types.ts).

The TypeScript core is shallowly embedded: strings are `List Char` (wrapped
into `String` at the API surface), the JavaScript ASCII regex classes become
character predicates, thrown `DSLError`s become `Except DSLError`, and the
ambient clock read by `new Date().toISOString()` becomes an explicit `now`
argument threaded to `defaultValueFor`.
-/

namespace Autotyper

/-! ## JavaScript string primitives (ASCII fragment) -/

/-- Model of the regex class `\s` and of the whitespace of `String.prototype.trim`, restricted to ASCII. -/
def isSpaceJS (c : Char) : Bool :=
  c = ' ' || c = '\t' || c = '\n' || c = '\r'

/-- Characters kept by the sanitizer strip of `[^A-Za-z0-9_$]`. -/
def isIdentChar (c : Char) : Bool :=
  c.isAlpha || c.isDigit || c = '_' || c = '$'

/-- Characters allowed to start a TS identifier: `[A-Za-z_$]`. -/
def isIdentStart (c : Char) : Bool :=
  c.isAlpha || c = '_' || c = '$'

/-- The identifier regex `^[A-Za-z_$][A-Za-z0-9_$]*$` on character
lists. -/
def isValidIdentL : List Char → Bool
  | [] => false
  | c :: rest => isIdentStart c && rest.all isIdentChar

/-- The identifier regex `^[A-Za-z_$][A-Za-z0-9_$]*$` on strings. -/
def isValidIdent (s : String) : Bool := isValidIdentL s.data

/-- `String.prototype.trim` on a character list. -/
def trimL (l : List Char) : List Char :=
  ((l.dropWhile isSpaceJS).reverse.dropWhile isSpaceJS).reverse

/-- Single left-to-right pass collecting the current run (reversed) in
`acc`; a separator flushes a non-empty run, the end flushes the last
one. -/
def chunksByAux (sep : Char → Bool) (acc : List Char) :
    List Char → List (List Char)
  | [] => if acc.isEmpty then [] else [acc.reverse]
  | c :: rest =>
    if sep c then
      if acc.isEmpty then chunksByAux sep [] rest
      else acc.reverse :: chunksByAux sep [] rest
    else chunksByAux sep (c :: acc) rest

/-- JS `s.split(re).filter(Boolean)` where `re` matches one separator
character (with `+`): the maximal runs of non-separator characters. -/
def chunksBy (sep : Char → Bool) (l : List Char) : List (List Char) :=
  chunksByAux sep [] l

/-- Uppercase the first character (JS `w[0].toUpperCase() + w.slice(1)`,
ASCII). -/
def upperFirstL : List Char → List Char
  | [] => []
  | c :: rest => c.toUpper :: rest

/-- Lowercase the first character. -/
def lowerFirstL : List Char → List Char
  | [] => []
  | c :: rest => c.toLower :: rest

/-- JS `String.prototype.includes` (substring test). -/
def hasSub (pat : List Char) : List Char → Bool
  | [] => pat.isEmpty
  | c :: rest => pat.isPrefixOf (c :: rest) || hasSub pat rest

/-- JS `String.prototype.endsWith`. -/
def endsWithL (pat l : List Char) : Bool := pat.isSuffixOf l

/-! ## Data model (src/core/types.ts) -/

/-- `GenOptions`: each field optional, as in the TS type; an omitted field
is `none` and is falsy under `truthy`. -/
structure GenOptions where
  optionalByDefault : Option Bool := none
  zod : Option Bool := none
  interface : Option Bool := none
  «example» : Option Bool := none
  strictZod : Option Bool := none
  deriving DecidableEq, Repr

/-- JS truthiness of an optional boolean option (`undefined` and `false`
are both falsy). -/
def truthy (o : Option Bool) : Bool := o.getD false

instance {ε α : Type} [DecidableEq ε] [DecidableEq α] :
    DecidableEq (Except ε α) := fun a b =>
  match a, b with
  | .ok x, .ok y => decidable_of_iff (x = y) (by simp)
  | .error x, .error y => decidable_of_iff (x = y) (by simp)
  | .ok _, .error _ => .isFalse (by simp)
  | .error _, .ok _ => .isFalse (by simp)

/-- `Prop` from types.ts (renamed: `Prop` is a Lean keyword). -/
structure Prop' where
  name : String
  isRequired : Bool
  tsType : String
  deriving DecidableEq, Repr

/-- `DSLError` (its data fields; the `Error` machinery is irrelevant). -/
structure DSLError where
  message : String
  token : Option String := none
  index : Option Nat := none
  hint : Option String := none
  deriving DecidableEq, Repr

/-- `TS_RESERVED` from types.ts, verbatim. -/
def TS_RESERVED : List String :=
  ["break", "case", "catch", "class", "const", "continue", "debugger",
   "default", "delete", "do", "else", "enum", "export", "extends", "false",
   "finally", "for", "function", "if", "import", "in", "instanceof", "new",
   "null", "return", "super", "switch", "this", "throw", "true", "try",
   "typeof", "var", "void", "while", "with", "as", "implements",
   "interface", "let", "package", "private", "protected", "public",
   "static", "yield", "any", "boolean", "constructor", "declare", "get",
   "module", "require", "number", "set", "string", "symbol", "type",
   "from", "of"]

/-! ## Name sanitizer -/

/-- The regex class `[-_\s]` that `toPascalCase` splits on. -/
def pascalSep (c : Char) : Bool :=
  c = '-' || c = '_' || isSpaceJS c

/-- `toPascalCase`: split on runs of `[-_\s]`, drop empties, capitalize
the first character of each segment, concatenate. -/
def toPascalCaseL (x : List Char) : List Char :=
  ((chunksBy pascalSep x).map upperFirstL).flatten

/-- `toCamel`: PascalCase then lowercase the first character (empty stays
empty, as in the truthiness guard of the source). -/
def toCamelL (x : List Char) : List Char :=
  let p := toPascalCaseL x
  if p = [] then p else lowerFirstL p

/-- The `safe` stage of `sanitizeTypeName`: PascalCase the trimmed input,
strip non-identifier characters, default to `"Type"` when empty. -/
def safePart (raw : List Char) : List Char :=
  if (toPascalCaseL (trimL raw)).filter isIdentChar = [] then "Type".data
  else (toPascalCaseL (trimL raw)).filter isIdentChar

/-- `sanitizeTypeName` on character lists: the `safe` stage plus the
reserved-word suffix. -/
def sanitizeTypeNameL (raw : List Char) : List Char :=
  if TS_RESERVED.contains (String.mk (safePart raw)) then
    safePart raw ++ "Type".data
  else safePart raw

/-- `sanitizeTypeName` from utils.ts. -/
def sanitizeTypeName (raw : String) : String :=
  ⟨sanitizeTypeNameL raw.data⟩

/-- The `cleaned` stage of `sanitizePropName`: camelCase the trimmed
input and strip non-identifier characters. -/
def propCleaned (raw : List Char) : List Char :=
  (toCamelL (trimL raw)).filter isIdentChar

/-- The empty-name fallback stage of `sanitizePropName`. -/
def propCleaned1 (raw : List Char) : List Char :=
  if propCleaned raw = [] then "prop".data else propCleaned raw

/-- The leading-digit-prefix stage of `sanitizePropName`. -/
def propCleaned2 (raw : List Char) : List Char :=
  if ((propCleaned1 raw).headD ' ').isDigit then '_' :: propCleaned1 raw
  else propCleaned1 raw

/-- `sanitizePropName` on character lists: the staged cleanups plus the
reserved-word underscore suffix. -/
def sanitizePropNameL (raw : List Char) : List Char :=
  if TS_RESERVED.contains (String.mk (propCleaned2 raw)) then
    propCleaned2 raw ++ ['_']
  else propCleaned2 raw

/-- `sanitizePropName` from utils.ts. -/
def sanitizePropName (raw : String) : String :=
  ⟨sanitizePropNameL raw.data⟩

/-! ## Type token mapper -/

/-- `normalizeTypeToken` from utils.ts: just a trim. -/
def normalizeTypeToken (raw : String) : String := ⟨trimL raw.data⟩

/-- The non-array arm of `typeMapper`: the shorthand table with
passthrough default, applied to the trimmed token `t`. -/
def typeTable (t : List Char) : List Char :=
  if t = ['s'] then "string".data
  else if t = ['n'] then "number".data
  else if t = ['b'] then "boolean".data
  else if t = ['d'] then "Date".data
  else if t = ['u'] then "unknown".data
  else if t = ['a'] then "any".data
  else t

/-- `typeMapper` with structural fuel.  Each recursive step strips a
trailing `[]` from the trimmed token, so the recursion depth is bounded by
the length of the input; the fuel-0 arm is unreachable for
`fuel ≥ length` except on the empty token, where `trimL l = []` is also
what the source computes. -/
def typeMapperF : Nat → List Char → List Char
  | 0, l => trimL l
  | fuel + 1, l =>
    let t := trimL l
    if endsWithL ['[', ']'] t then
      typeMapperF fuel (t.dropLast.dropLast) ++ ['[', ']']
    else typeTable t

/-- `typeMapper` on character lists. -/
def typeMapperL (l : List Char) : List Char := typeMapperF l.length l

/-- `typeMapper` from utils.ts. -/
def typeMapper (raw : String) : String := ⟨typeMapperL raw.data⟩

/-! ## Type inference engine -/

/-- `isPluralish` from utils.ts. -/
def isPluralish (name : String) : Bool :=
  decide (name.data.length > 3) && endsWithL ['s'] name.data

/-- Test for `^(is|has|can|should|did|was)` followed by one character of
class `cls`. -/
def boolPrefixTest (cls : Char → Bool) (n : List Char) : Bool :=
  ["is", "has", "can", "should", "did", "was"].any fun p =>
    p.data.isPrefixOf n &&
      (match (n.drop p.data.length).headD ' ' with
       | c => cls c && decide (n.length > p.data.length))

/-- `inferTypeFromName` from utils.ts (rule order preserved). -/
def inferTypeFromNameL (name : List Char) : List Char :=
  let n := trimL name
  if endsWithL ['A', 't'] n || endsWithL ['O', 'n'] n
      || "date".data.isPrefixOf (n.map Char.toLower)
      || hasSub "date".data (n.map Char.toLower) then "Date".data
  else if boolPrefixTest (fun c => c.isUpper || c = '_') n
      || boolPrefixTest (fun c => c.isLower) n then "boolean".data
  else if n = "id".data || endsWithL "_id".data n || endsWithL "Id".data n
    then "string".data
  else if isPluralish ⟨n⟩ then "string[]".data
  else "string".data

/-- `inferTypeFromName` from utils.ts. -/
def inferTypeFromName (name : String) : String :=
  ⟨inferTypeFromNameL name.data⟩

/-! ## DSL parser -/

/-- The single-quote character, written by code point to keep the source
free of quote literals. -/
def squote : Char := Char.ofNat 39

/-- `stripQuotes` from utils.ts. -/
def stripQuotesL (s : List Char) : List Char :=
  let t := trimL s
  if (t.headD ' ' = '"' && endsWithL ['"'] t)
      || (t.headD ' ' = squote && endsWithL [squote] t) then
    (t.drop 1).dropLast
  else t

/-- `stripQuotes` from utils.ts, on strings. -/
def stripQuotes (s : String) : String := ⟨stripQuotesL s.data⟩

/-- `parsePropName` from utils.ts: reads the `!`/`?` suffix markers (the
`?:` containment check included), strips them, sanitizes, and reports the
forced requiredness (`some b`) or its absence (`none`). -/
def parsePropNameL (raw : List Char) (_opts : GenOptions) :
    Except DSLError (String × Option Bool) :=
  let s := trimL raw
  let isReq := endsWithL ['!'] s
  let isOpt := endsWithL ['?'] s || hasSub ['?', ':'] s
  let s1 := if isReq then s.dropLast else s
  let s2 := if endsWithL ['?'] s1 then s1.dropLast else s1
  let base := trimL s2
  if base = [] then .error { message := "Empty property name" }
  else
    .ok (sanitizePropName ⟨base⟩,
      if isReq then some true else if isOpt then some false else none)

/-- One legacy-dialect chunk (`<prop>:<type>` or with extra `:`-segments),
as parsed inside the `chunks.map` of `parseDSL`. -/
def parseChunkOld (opts : GenOptions) (index : Nat) (chunk : List Char) :
    Except DSLError Prop' :=
  let parts := chunksBy (fun c => c = ':') chunk
  let rawProp := stripQuotesL (parts.headD [])
  let rawType := parts.getD 1 []
  let optionalOld := parts.contains ['o']
  if rawProp = [] || rawType = [] then
    .error { message := "Bad property chunk", token := some ⟨chunk⟩,
             index := some index,
             hint := some "Expected: name:type or name:type:o (optional). Example: isAdmin:b:o" }
  else
    match parsePropNameL rawProp opts with
    | .error e => .error e
    | .ok (name, rbq) =>
      .ok { name := name,
            isRequired := rbq.getD (!optionalOld && !truthy opts.optionalByDefault),
            tsType := typeMapper ⟨rawType⟩ }

/-- The `cleaned` stage of a modern property token: one trailing `;`
stripped, then trimmed. -/
def newCleaned (token : List Char) : List Char :=
  trimL (if endsWithL [';'] token then token.dropLast else token)

/-- The `:`-split (empty segments dropped) of a cleaned modern token. -/
def newParts (token : List Char) : List (List Char) :=
  chunksBy (fun c => c = ':') (newCleaned token)

/-- The raw property part of a modern token: from the first `:`-segment
when there are at least two (with a `?` appended when some segment from
the third onward is the literal `o`), otherwise the whole cleaned
token. -/
def newRawPropPart (token : List Char) : List Char :=
  if (newParts token).length ≥ 2 then
    if ((newParts token).drop 2).contains ['o'] then
      if endsWithL ['?'] (stripQuotesL ((newParts token).headD [])) then
        stripQuotesL ((newParts token).headD [])
      else stripQuotesL ((newParts token).headD []) ++ ['?']
    else stripQuotesL ((newParts token).headD [])
  else stripQuotesL (newCleaned token)

/-- The raw type part of a modern token: the second `:`-segment when
present. -/
def newRawTypePart (token : List Char) : Option (List Char) :=
  if (newParts token).length ≥ 2 then some ((newParts token).getD 1 [])
  else none

/-- One modern-dialect property token, as parsed inside the
`propTokens.map` of `parseDSL`. -/
def parseTokenNew (opts : GenOptions) (index : Nat) (token : List Char) :
    Except DSLError Prop' :=
  if endsWithL [':'] (newCleaned token) then
    .error { message := "Bad token (dangling \x27:\x27)", token := some ⟨token⟩,
             index := some index, hint := some "Use email:s (not email:)" }
  else if newRawPropPart token = [] then
    .error { message := "Empty token", token := some ⟨token⟩,
             index := some index, hint := some "Example: email:s" }
  else
    match parsePropNameL (newRawPropPart token) opts with
    | .error e => .error e
    | .ok (name, rbq) =>
      .ok { name := name,
            isRequired := rbq.getD (!truthy opts.optionalByDefault),
            tsType :=
              match newRawTypePart token with
              | some rt => typeMapper ⟨rt⟩
              | none => inferTypeFromName name }

/-- Left-to-right effectful map with the element index, as JS
`Array.prototype.map` over a callback that may throw: the first error
wins. -/
def mapExceptIdx (f : Nat → List Char → Except DSLError Prop') :
    Nat → List (List Char) → Except DSLError (List Prop')
  | _, [] => .ok []
  | i, x :: xs =>
    match f i x with
    | .error e => .error e
    | .ok y =>
      match mapExceptIdx f (i + 1) xs with
      | .error e => .error e
      | .ok ys => .ok (y :: ys)

/-- The parsed model: result of `parseDSL`. -/
structure ParsedModel where
  typeName : String
  props : List Prop'
  deriving DecidableEq, Repr

/-- JS `replace(/\r\n/g, "\n")`. -/
def replaceCRLF : List Char → List Char
  | '\r' :: '\n' :: rest => '\n' :: replaceCRLF rest
  | c :: rest => c :: replaceCRLF rest
  | [] => []

/-- JS `replace(/[,\n]/g, " ")`. -/
def commaNlToSpace (l : List Char) : List Char :=
  l.map fun c => if c = ',' || c = '\n' then ' ' else c

/-- JS `replace(/\s+/g, " ")`, single pass: `inRun` records whether the
previous character was whitespace, so each maximal whitespace run emits
one space. -/
def collapseWsAux (inRun : Bool) : List Char → List Char
  | [] => []
  | c :: rest =>
    if isSpaceJS c then
      if inRun then collapseWsAux true rest
      else ' ' :: collapseWsAux true rest
    else c :: collapseWsAux false rest

/-- JS `replace(/\s+/g, " ")`: each maximal whitespace run becomes one
space. -/
def collapseWs (l : List Char) : List Char := collapseWsAux false l

/-- `parseDSL` from utils.ts: dialect dispatch on the `type:` marker,
then the legacy or the modern tokenization. -/
def parseDSL (dslRaw : String) (opts : GenOptions) :
    Except DSLError ParsedModel :=
  let dsl := trimL dslRaw.data
  if dsl = [] then
    .error { message := "Empty DSL",
             hint := some "Example: \"User email:s password:s isAdmin?:b createdAt:d tags:s[]\"" }
  else if "type:".data.isPrefixOf dsl then
    -- OLD STYLE; `split("-", 2)` keeps the text before the first `-` and
    -- the text between the first and second `-`, discarding the rest.
    let head := dsl.takeWhile (fun c => c ≠ '-')
    let rest :=
      if dsl.contains '-' then
        ((dsl.dropWhile (fun c => c ≠ '-')).drop 1).takeWhile (fun c => c ≠ '-')
      else []
    if rest = [] then
      .error { message := "Missing properties after \x27-\x27 in old DSL",
               hint := some "type:user-email:s/password:s" }
    else
      let rawName := trimL (head.drop "type:".data.length)
      let typeName := sanitizeTypeName ⟨rawName⟩
      if typeName = "" then .error { message := "Missing type name" }
      else
        let chunks := chunksBy (fun c => c = '/') rest
        match mapExceptIdx (parseChunkOld opts) 0 chunks with
        | .error e => .error e
        | .ok props => .ok { typeName := typeName, props := props }
  else
    -- NEW STYLE (also tolerates commas and newlines).
    let normalized := trimL (collapseWs (commaNlToSpace (replaceCRLF dsl)))
    let rawTypeName := normalized.takeWhile (fun c => c ≠ ' ')
    let rest := (normalized.dropWhile (fun c => c ≠ ' ')).drop 1
    let typeName := sanitizeTypeName ⟨stripQuotesL rawTypeName⟩
    if typeName = "" then .error { message := "Missing type name" }
    else if rest = [] then
      .error { message := "No properties provided",
               hint := some "Example: \"User email:s password:s isAdmin?:b\"" }
    else
      let propTokens :=
        ((chunksBy (fun c => isSpaceJS c || c = '/') rest).map trimL).filter
          (fun t => !t.isEmpty)
      match mapExceptIdx (parseTokenNew opts) 0 propTokens with
      | .error e => .error e
      | .ok props => .ok { typeName := typeName, props := props }

/-! ## Code generators -/

/-- JS `Array.prototype.join`. -/
def joinSep (sep : String) : List String → String
  | [] => ""
  | x :: rest => rest.foldl (fun a b => a ++ sep ++ b) x

/-- The `  <name><?>: <type>;` line shared by the type and interface
generators. -/
def fieldLine (p : Prop') : String :=
  "  " ++ p.name ++ (if p.isRequired then "" else "?") ++ ": " ++ p.tsType ++ ";"

/-- `generateType` from utils.ts. -/
def generateType (typeName : String) (props : List Prop') : String :=
  "export type " ++ typeName ++ " = \x7b\n"
    ++ joinSep "\n" (props.map fieldLine) ++ "\n\x7d;\n"

/-- `generateInterface` from utils.ts. -/
def generateInterface (typeName : String) (props : List Prop') : String :=
  "export interface " ++ typeName ++ " \x7b\n"
    ++ joinSep "\n" (props.map fieldLine) ++ "\n\x7d\n"

/-- The non-array arm of `tsTypeToZod`: validator table with the
`z.unknown()` fallback. -/
def zodTable (l : List Char) : List Char :=
  if l = "string".data then "z.string()".data
  else if l = "number".data then "z.number()".data
  else if l = "boolean".data then "z.boolean()".data
  else if l = "Date".data then "z.coerce.date()".data
  else if l = "unknown".data then "z.unknown()".data
  else if l = "any".data then "z.any()".data
  else "z.unknown()".data

/-- `tsTypeToZod` with structural fuel (no trim here, unlike
`typeMapper`); each step strips a trailing `[]`, so `length` fuel
suffices, the fuel-0 arm being reachable only on the empty token where the
table fallback also applies. -/
def tsTypeToZodF : Nat → List Char → List Char
  | 0, l => zodTable l
  | fuel + 1, l =>
    if endsWithL ['[', ']'] l then
      "z.array(".data ++ tsTypeToZodF fuel (l.dropLast.dropLast) ++ [')']
    else zodTable l

/-- `tsTypeToZod` on character lists. -/
def tsTypeToZodL (l : List Char) : List Char := tsTypeToZodF l.length l

/-- `tsTypeToZod` from utils.ts. -/
def tsTypeToZod (tsType : String) : String := ⟨tsTypeToZodL tsType.data⟩

/-- `generateZod` from utils.ts. -/
def generateZod (typeName : String) (props : List Prop') (strict : Bool) :
    String :=
  let lines := props.map fun p =>
    let base := tsTypeToZod p.tsType
    "  " ++ p.name ++ ": "
      ++ (if p.isRequired then base else base ++ ".optional()") ++ ","
  let strictCall := if strict then ".strict()" else ""
  "import \x7b z \x7d from \"zod\";\n\nexport const " ++ typeName
    ++ "Schema = z.object(\x7b\n" ++ joinSep "\n" lines ++ "\n\x7d)"
    ++ strictCall ++ ";\n\nexport type " ++ typeName
    ++ " = z.infer<typeof " ++ typeName ++ "Schema>;\n"

/-- The JSON-like values that `defaultValueFor` can produce.  The only
array the source ever emits is the literal `[]`, modelled by
`emptyArr`. -/
inductive JSValue where
  | str : String → JSValue
  | num : Int → JSValue
  | bool : Bool → JSValue
  | emptyArr : JSValue
  | null : JSValue
  deriving DecidableEq, Repr

/-- `defaultValueFor` from utils.ts.  The source reads the ambient clock
(`new Date().toISOString()`) for `Date`; the clock reading is the explicit
`now` argument here. -/
def defaultValueFor (now : String) (tsType : String) : JSValue :=
  if endsWithL ['[', ']'] tsType.data then .emptyArr
  else if tsType = "string" then .str ""
  else if tsType = "number" then .num 0
  else if tsType = "boolean" then .bool false
  else if tsType = "Date" then .str now
  else .null

/-- JS `obj[k] = v` on an insertion-ordered object: an existing key keeps
its position and gets the new value, a fresh key is appended. -/
def setKey (obj : List (String × JSValue)) (k : String) (v : JSValue) :
    List (String × JSValue) :=
  if (obj.map Prod.fst).contains k then
    obj.map fun kv => if kv.1 = k then (k, v) else kv
  else obj ++ [(k, v)]

/-- Key lookup in the insertion-ordered object (the value JS `obj[k]`
reads back). -/
def lookupKey (k : String) : List (String × JSValue) → Option JSValue
  | [] => none
  | kv :: rest => if kv.1 = k then some kv.2 else lookupKey k rest

/-- The loop of `generateExample`, with the object built so far. -/
def genExAux (now : String) (obj : List (String × JSValue)) :
    List Prop' → List (String × JSValue)
  | [] => obj
  | p :: rest =>
    genExAux now
      (if p.isRequired then setKey obj p.name (defaultValueFor now p.tsType)
       else obj) rest

/-- `generateExample` from utils.ts: required properties only, keyed by
name, with type-determined defaults. -/
def generateExample (props : List Prop') (now : String) :
    List (String × JSValue) :=
  genExAux now [] props

/-! ## Output builder -/

/-- One entry of the `normalized.props` echo in the build output. -/
structure NormProp where
  name : String
  type : String
  required : Bool
  deriving DecidableEq, Repr

/-- The `normalized` echo of the model. -/
structure Normalized where
  type : String
  props : List NormProp
  deriving DecidableEq, Repr

/-- The result object of `buildOutput`: conditional artifacts are `Option`
fields, present exactly when the source adds the key. -/
structure BuildOut where
  typeName : String
  normalized : Normalized
  type : String
  interface : Option String
  zod : Option String
  «example» : Option (List (String × JSValue))
  deriving DecidableEq, Repr

/-- `buildOutput` from utils.ts, with the ambient clock as explicit
`now`. -/
def buildOutput (dsl : String) (options : GenOptions) (now : String) :
    Except DSLError BuildOut :=
  match parseDSL dsl options with
  | .error e => .error e
  | .ok m =>
    .ok { typeName := m.typeName,
          normalized :=
            { type := m.typeName,
              props := m.props.map fun p =>
                { name := p.name, type := p.tsType, required := p.isRequired } },
          type := generateType m.typeName m.props,
          interface :=
            if truthy options.interface then
              some (generateInterface m.typeName m.props)
            else none,
          zod :=
            if truthy options.zod then
              some (generateZod m.typeName m.props (truthy options.strictZod))
            else none,
          «example» :=
            if truthy options.«example» then
              some (generateExample m.props now)
            else none }

/-! ## Claims -/

/-- `sanitizeTypeNameL` never returns the empty list: an empty cleaned
name falls back to `"Type"`. -/
theorem safePart_ne_nil (raw : List Char) : safePart raw ≠ [] := by
  unfold safePart
  split
  · decide
  · assumption

/-- `sanitizeTypeNameL` never returns the empty list. -/
theorem sanitizeTypeNameL_ne_nil (raw : List Char) :
    sanitizeTypeNameL raw ≠ [] := by
  unfold sanitizeTypeNameL
  split
  · simp
  · exact safePart_ne_nil raw

/-- `sanitizeTypeName` never returns the empty string. -/
theorem sanitizeTypeName_ne_empty (raw : String) :
    sanitizeTypeName raw ≠ "" := by
  intro h
  exact sanitizeTypeNameL_ne_nil raw.data (congrArg String.data h)

/-- C9: with `optionalByDefault = false`, the legacy input
`type:user-email:s/password:s` and the modern input
`User email:s password:s` parse to the same model: type name `User` with
required string properties `email` then `password`. -/
theorem C9_dialects_agree :
    parseDSL "type:user-email:s/password:s" { optionalByDefault := some false } =
      Except.ok { typeName := "User",
                  props := [{ name := "email", isRequired := true, tsType := "string" },
                  { name := "password", isRequired := true, tsType := "string" }] } ∧
    parseDSL "User email:s password:s" { optionalByDefault := some false } =
      parseDSL "type:user-email:s/password:s" { optionalByDefault := some false } :=
  ⟨rfl, rfl⟩

/-- C3 counterexample: `parseDSL "type:user-email:s"` does not raise the
missing-properties error; `split("-", 2)` yields `head = "type:user"` and
`rest = "email:s"`, so the input parses to a model with the single
required string property `email`. -/
theorem C3_single_dash_parses_cex :
    parseDSL "type:user-email:s" { optionalByDefault := some false } =
      Except.ok { typeName := "User",
                  props := [{ name := "email", isRequired := true, tsType := "string" }] } :=
  rfl

/-- C3 amended: for every configuration, `type:user-email:s` parses to
type name `User` with the single string property `email` (required unless
`optionalByDefault` is truthy); the missing-properties error is raised
instead when no `-` follows the prefix at all, as in `type:user`. -/
theorem C3_single_dash_parses (opts : GenOptions) :
    parseDSL "type:user-email:s" opts =
      Except.ok { typeName := "User",
                  props := [{ name := "email",
                              isRequired := !truthy opts.optionalByDefault,
                              tsType := "string" }] } ∧
    parseDSL "type:user" opts =
      Except.error { message := "Missing properties after \x27-\x27 in old DSL",
                     hint := some "type:user-email:s/password:s" } :=
  ⟨rfl, rfl⟩

/-- C4 counterexample: the missing-type-name case and the empty-chunk-list
case do not raise: `type:-a:s` (empty name portion) parses with the
fallback type name `Type`, and the legacy input whose body is a lone slash
(no usable chunk) parses to a model with zero properties. -/
theorem C4_error_cases_cex :
    parseDSL "type:-a:s" {} =
      Except.ok { typeName := "Type",
                  props := [{ name := "a", isRequired := true, tsType := "string" }] } ∧
    parseDSL "type:user-/" {} =
      Except.ok { typeName := "User", props := [] } :=
  ⟨rfl, rfl⟩

/-- C4 amended: `parseDSL` raises the distinct Empty-DSL error whenever
the input trims to empty; but the missing-type-name error is unreachable
(`sanitizeTypeName` never returns an empty string, so an empty type-name
portion parses with the fallback name `Type`), and an input with zero
usable property chunks, such as the legacy input whose body is a lone
slash, yields a model with an empty property list rather than an error. -/
theorem C4_error_cases (opts : GenOptions) :
    parseDSL "" opts =
      Except.error { message := "Empty DSL",
                     hint := some "Example: \"User email:s password:s isAdmin?:b createdAt:d tags:s[]\"" } ∧
    parseDSL "   " opts =
      Except.error { message := "Empty DSL",
                     hint := some "Example: \"User email:s password:s isAdmin?:b createdAt:d tags:s[]\"" } ∧
    (∀ raw : String, sanitizeTypeName raw ≠ "") ∧
    parseDSL "type:-a:s" opts =
      Except.ok { typeName := "Type",
                  props := [{ name := "a",
                              isRequired := !truthy opts.optionalByDefault,
                              tsType := "string" }] } ∧
    parseDSL "type:user-/" opts =
      Except.ok { typeName := "User", props := [] } :=
  ⟨rfl, rfl, sanitizeTypeName_ne_empty, rfl, rfl⟩

/-- C5 counterexample: the `o` marker is not restricted to its designated
position.  Legacy chunk `o:s` (property named `o`) comes out optional
because `parts.includes("o")` sees the property segment, contradicting
the claimed required result; modern token `a:s:x:o` comes out optional
although its third `:`-segment is `x`, not `o`. -/
theorem C5_o_marker_cex :
    parseDSL "type:user-o:s" { optionalByDefault := some false } =
      Except.ok { typeName := "User",
                  props := [{ name := "o", isRequired := false, tsType := "string" }] } ∧
    parseDSL "User a:s:x:o" { optionalByDefault := some false } =
      Except.ok { typeName := "User",
                  props := [{ name := "a", isRequired := false, tsType := "string" }] } :=
  ⟨rfl, rfl⟩

/-- C5 amended: in the legacy dialect a chunk is marked optional whenever
*any* of its `:`-segments equals the literal `o` — the designated trailing
position (`name:s:o`), but also the property position (`o:s`) or the type
position (`name:o`, whose type passes through as `o`); in the modern
dialect a token is marked optional whenever any segment from the third
onward equals `o` (`a:s:o`, but also `a:s:x:o`); with
`optionalByDefault = false`, a token without any marker stays required. -/
theorem C5_o_marker_anywhere :
    parseDSL "type:user-name:s:o" { optionalByDefault := some false } =
      Except.ok { typeName := "User",
                  props := [{ name := "name", isRequired := false, tsType := "string" }] } ∧
    parseDSL "type:user-o:s" { optionalByDefault := some false } =
      Except.ok { typeName := "User",
                  props := [{ name := "o", isRequired := false, tsType := "string" }] } ∧
    parseDSL "type:user-name:o" { optionalByDefault := some false } =
      Except.ok { typeName := "User",
                  props := [{ name := "name", isRequired := false, tsType := "o" }] } ∧
    parseDSL "User a:s:o" { optionalByDefault := some false } =
      Except.ok { typeName := "User",
                  props := [{ name := "a", isRequired := false, tsType := "string" }] } ∧
    parseDSL "User a:s:x:o" { optionalByDefault := some false } =
      Except.ok { typeName := "User",
                  props := [{ name := "a", isRequired := false, tsType := "string" }] } ∧
    parseDSL "User a:s" { optionalByDefault := some false } =
      Except.ok { typeName := "User",
                  props := [{ name := "a", isRequired := true, tsType := "string" }] } :=
  ⟨rfl, rfl, rfl, rfl, rfl, rfl⟩

/-- C1 counterexample: on the well-formed input `User email:s`, a
configuration that omits the `interface`, `zod` and `example` options
produces none of the three artifacts — the core treats omitted options as
falsy rather than defaulting them to true. -/
theorem C1_omitted_options_cex :
    (buildOutput "User email:s" {} "now").toOption.map
        (fun o => (o.interface, o.zod, o.«example»)) =
      some (none, none, none) :=
  rfl

/-- C1 amended: `buildOutput` with a configuration that omits the
`interface`, `zod`/schema and `example` options *omits* the interface
text, the schema text and the example object (omitted options are falsy in
the core; the documented defaults of true live in the CLI wrapper); and
when `zod` is enabled with `strictZod` omitted, the schema is generated
with `strict = false`, so the strict modifier is omitted. -/
theorem C1_omitted_options_omit_artifacts (dsl now : String) :
    (buildOutput dsl {} now).map
        (fun o => (o.interface, o.zod, o.«example»)) =
      (parseDSL dsl {}).map (fun _ => (none, none, none)) ∧
    (buildOutput dsl { zod := some true } now).map (fun o => o.zod) =
      (parseDSL dsl { zod := some true }).map
        (fun m => some (generateZod m.typeName m.props false)) := by
  constructor
  · cases h : parseDSL dsl {} <;> simp [buildOutput, h, truthy, Except.map]
  · cases h : parseDSL dsl { zod := some true } <;>
      simp [buildOutput, h, truthy, Except.map]

/-- C2 counterexample: the example object is not a function of the DSL
string and the configuration alone — the default for a required
`Date`-typed property is the ambient clock reading
(`new Date().toISOString()`), so the same call at two clock instants
returns different results. -/
theorem C2_clock_dependence_cex :
    buildOutput "User createdAt:d" { «example» := some true }
        "2024-01-01T00:00:00.000Z" ≠
      buildOutput "User createdAt:d" { «example» := some true }
        "2024-01-01T00:00:00.001Z" := by
  decide

/-- C2 amended: `buildOutput` is deterministic given the DSL string, the
configuration and the clock reading; whenever the example artifact is not
emitted the result is independent of the clock, the clock entering only
through the `Date` default of the example object. -/
theorem C2_deterministic_without_example (dsl : String) (opts : GenOptions)
    (n1 n2 : String) (h : truthy opts.«example» = false) :
    buildOutput dsl opts n1 = buildOutput dsl opts n2 := by
  unfold buildOutput
  cases hp : parseDSL dsl opts <;> simp [h]

/-- Witness for C2 amended at a concrete input: with `example` omitted
(hence not truthy), two clock readings give identical results. -/
theorem C2_deterministic_without_example_witness :
    truthy ({ zod := some true, interface := some true } : GenOptions).«example» = false ∧
    buildOutput "User email:s" { zod := some true, interface := some true } "A" =
      buildOutput "User email:s" { zod := some true, interface := some true } "B" := by
  refine ⟨rfl, ?_⟩
  exact C2_deterministic_without_example "User email:s"
    { zod := some true, interface := some true } "A" "B" rfl

/-! ### Trimming support lemmas (towards C10) -/

/-- `dropWhile` never lengthens a list. -/
theorem dropWhile_len_le (p : α → Bool) (l : List α) :
    (l.dropWhile p).length ≤ l.length :=
  (List.dropWhile_sublist p).length_le

/-- `trimL` is the Mathlib right-drop of the left-drop. -/
theorem trimL_eq_rdrop (l : List Char) :
    trimL l = List.rdropWhile isSpaceJS (l.dropWhile isSpaceJS) := rfl

/-- `trimL` never lengthens a list. -/
theorem trimL_len_le (l : List Char) : (trimL l).length ≤ l.length := by
  rw [trimL_eq_rdrop]
  have hpre := List.rdropWhile_prefix isSpaceJS (l.dropWhile isSpaceJS)
  calc (List.rdropWhile isSpaceJS (l.dropWhile isSpaceJS)).length
      ≤ (l.dropWhile isSpaceJS).length := hpre.sublist.length_le
    _ ≤ l.length := dropWhile_len_le _ _

/-- If `dropWhile` keeps a cons intact, the head fails the predicate. -/
theorem dropWhile_cons_eq_self {p : Char → Bool} {c : Char} {w : List Char}
    (h : (c :: w).dropWhile p = c :: w) : p c = false := by
  cases hpc : p c with
  | false => rfl
  | true =>
    exfalso
    rw [List.dropWhile_cons, if_pos hpc] at h
    have h1 := dropWhile_len_le p w
    have h2 := congrArg List.length h
    simp at h2
    omega

/-- A leading segment of a list unchanged by `dropWhile` is itself
unchanged. -/
theorem dropWhile_eq_self_of_front {p : Char → Bool} {x y : List Char}
    (hpre : x <+: y) (hy : y.dropWhile p = y) : x.dropWhile p = x := by
  cases x with
  | nil => rfl
  | cons c x' =>
    obtain ⟨t, ht⟩ := hpre
    rw [← ht, List.cons_append] at hy
    have hc := dropWhile_cons_eq_self hy
    rw [List.dropWhile_cons, if_neg (by simp [hc])]

/-- `trimL` output is unchanged by a further left `dropWhile`. -/
theorem trimL_front (l : List Char) :
    (trimL l).dropWhile isSpaceJS = trimL l := by
  rw [trimL_eq_rdrop]
  have hpre := List.rdropWhile_prefix isSpaceJS (l.dropWhile isSpaceJS)
  exact dropWhile_eq_self_of_front hpre (List.dropWhile_idempotent _ _)

/-- `trimL` output is unchanged by a further right `rdropWhile`. -/
theorem trimL_rear (l : List Char) :
    List.rdropWhile isSpaceJS (trimL l) = trimL l := by
  rw [trimL_eq_rdrop]
  exact List.rdropWhile_idempotent _ _

/-- A list surviving both one-sided trims survives `trimL`. -/
theorem trimL_of_parts {l : List Char}
    (h1 : l.dropWhile isSpaceJS = l)
    (h2 : List.rdropWhile isSpaceJS l = l) : trimL l = l := by
  rw [trimL_eq_rdrop, h1, h2]

/-- `trimL` is idempotent. -/
theorem trimL_idem (l : List Char) : trimL (trimL l) = trimL l :=
  trimL_of_parts (trimL_front l) (trimL_rear l)

/-- Appending `[]` to a trimmed token keeps it trimmed. -/
theorem trimL_append_br {x : List Char} (h : trimL x = x) :
    trimL (x ++ ['[', ']']) = x ++ ['[', ']'] := by
  apply trimL_of_parts
  · cases x with
    | nil => decide
    | cons c x' =>
      have hfront : (c :: x').dropWhile isSpaceJS = c :: x' := by
        calc (c :: x').dropWhile isSpaceJS
            = (trimL (c :: x')).dropWhile isSpaceJS := by rw [h]
          _ = trimL (c :: x') := trimL_front _
          _ = c :: x' := h
      have hc := dropWhile_cons_eq_self hfront
      rw [List.cons_append, List.dropWhile_cons, if_neg (by simp [hc])]
  · have : x ++ ['[', ']'] = (x ++ ['[']) ++ [']'] := by simp
    rw [this, List.rdropWhile_concat_neg _ _ _ (by decide)]

/-- Dropping the two last characters of `x ++ "[]"` recovers `x`. -/
theorem dropLast2_append_br (x : List Char) :
    (x ++ ['[', ']']).dropLast.dropLast = x := by
  have : x ++ ['[', ']'] = (x ++ ['[']) ++ [']'] := by simp
  rw [this, List.dropLast_concat, List.dropLast_concat]

/-- `x ++ "[]"` ends with `[]`. -/
theorem endsWithL_br_append (x : List Char) :
    endsWithL ['[', ']'] (x ++ ['[', ']']) = true := by
  simp [endsWithL, List.isSuffixOf_iff_suffix]

/-- The fuel of `typeMapperF` is irrelevant above the input length. -/
theorem typeMapperF_congr :
    ∀ n m (l : List Char), l.length ≤ n → l.length ≤ m →
      typeMapperF n l = typeMapperF m l := by
  intro n
  induction n with
  | zero =>
    intro m l hn _
    have hl : l = [] := List.length_eq_zero.mp (Nat.le_zero.mp hn)
    subst hl
    cases m with
    | zero => rfl
    | succ m => rfl
  | succ n ih =>
    intro m l hn hm
    cases m with
    | zero =>
      have hl : l = [] := List.length_eq_zero.mp (Nat.le_zero.mp hm)
      subst hl
      rfl
    | succ m =>
      show (let t := trimL l
            if endsWithL ['[', ']'] t then
              typeMapperF n (t.dropLast.dropLast) ++ ['[', ']']
            else typeTable t) =
           (let t := trimL l
            if endsWithL ['[', ']'] t then
              typeMapperF m (t.dropLast.dropLast) ++ ['[', ']']
            else typeTable t)
      by_cases h : endsWithL ['[', ']'] (trimL l) = true
      · have hsuf : List.IsSuffix ['[', ']'] (trimL l) := by
          simpa [endsWithL, List.isSuffixOf_iff_suffix] using h
        have h2 : 2 ≤ (trimL l).length := by simpa using hsuf.length_le
        have htr := trimL_len_le l
        have hlen : ((trimL l).dropLast.dropLast).length = (trimL l).length - 2 := by
          simp [List.length_dropLast]
          omega
        simp only [h, if_true]
        rw [ih m ((trimL l).dropLast.dropLast) (by omega) (by omega)]
      · simp only [Bool.not_eq_true] at h
        simp [h]

/-- One-step unfolding of `typeMapperL` in terms of itself. -/
theorem typeMapperL_eq (l : List Char) :
    typeMapperL l =
      if endsWithL ['[', ']'] (trimL l) then
        typeMapperL ((trimL l).dropLast.dropLast) ++ ['[', ']']
      else typeTable (trimL l) := by
  cases hn : l.length with
  | zero =>
    have hl : l = [] := List.length_eq_zero.mp hn
    subst hl
    rfl
  | succ n =>
    unfold typeMapperL
    rw [hn]
    show (let t := trimL l
          if endsWithL ['[', ']'] t then
            typeMapperF n (t.dropLast.dropLast) ++ ['[', ']']
          else typeTable t) = _
    by_cases h : endsWithL ['[', ']'] (trimL l) = true
    · have hsuf : List.IsSuffix ['[', ']'] (trimL l) := by
        simpa [endsWithL, List.isSuffixOf_iff_suffix] using h
      have h2 : 2 ≤ (trimL l).length := by simpa using hsuf.length_le
      have htr := trimL_len_le l
      have hlen : ((trimL l).dropLast.dropLast).length = (trimL l).length - 2 := by
        simp [List.length_dropLast]
        omega
      simp only [h, if_true]
      rw [typeMapperF_congr n (((trimL l).dropLast.dropLast).length)
        ((trimL l).dropLast.dropLast) (by omega) (Nat.le_refl _)]
    · simp only [Bool.not_eq_true] at h
      simp [h]

/-- Every `typeMapperL` output is a trimmed token. -/
theorem typeMapperL_trimmed :
    ∀ n (l : List Char), l.length ≤ n → trimL (typeMapperL l) = typeMapperL l := by
  intro n
  induction n with
  | zero =>
    intro l hn
    have hl : l = [] := List.length_eq_zero.mp (Nat.le_zero.mp hn)
    subst hl
    rfl
  | succ n ih =>
    intro l hn
    rw [typeMapperL_eq l]
    by_cases h : endsWithL ['[', ']'] (trimL l) = true
    · have hsuf : List.IsSuffix ['[', ']'] (trimL l) := by
        simpa [endsWithL, List.isSuffixOf_iff_suffix] using h
      have h2 : 2 ≤ (trimL l).length := by simpa using hsuf.length_le
      have htr := trimL_len_le l
      have hlen : ((trimL l).dropLast.dropLast).length = (trimL l).length - 2 := by
        simp [List.length_dropLast]
        omega
      simp only [h, if_true]
      exact trimL_append_br (ih _ (by omega))
    · rw [if_neg h]
      unfold typeTable
      split_ifs <;> first
        | decide
        | exact trimL_idem l

/-- `typeMapperL` is idempotent. -/
theorem typeMapperL_idem :
    ∀ n (l : List Char), l.length ≤ n →
      typeMapperL (typeMapperL l) = typeMapperL l := by
  intro n
  induction n with
  | zero =>
    intro l hn
    have hl : l = [] := List.length_eq_zero.mp (Nat.le_zero.mp hn)
    subst hl
    rfl
  | succ n ih =>
    intro l hn
    rw [typeMapperL_eq l]
    by_cases h : endsWithL ['[', ']'] (trimL l) = true
    · have hsuf : List.IsSuffix ['[', ']'] (trimL l) := by
        simpa [endsWithL, List.isSuffixOf_iff_suffix] using h
      have h2 : 2 ≤ (trimL l).length := by simpa using hsuf.length_le
      have htr := trimL_len_le l
      have hlen : ((trimL l).dropLast.dropLast).length = (trimL l).length - 2 := by
        simp [List.length_dropLast]
        omega
      simp only [h, if_true]
      have hX := ih ((trimL l).dropLast.dropLast) (by omega)
      have hXtrim : trimL (typeMapperL ((trimL l).dropLast.dropLast)) =
          typeMapperL ((trimL l).dropLast.dropLast) :=
        typeMapperL_trimmed (n + 1) _ (by omega)
      rw [typeMapperL_eq (typeMapperL ((trimL l).dropLast.dropLast) ++ ['[', ']'])]
      rw [trimL_append_br hXtrim]
      rw [if_pos (endsWithL_br_append _)]
      rw [dropLast2_append_br, hX]
    · rw [if_neg h]
      unfold typeTable
      split_ifs with h1 h2 h3 h4 h5 h6
      · decide
      · decide
      · decide
      · decide
      · decide
      · decide
      · rw [typeMapperL_eq (trimL l)]
        rw [trimL_idem l]
        rw [if_neg h]
        unfold typeTable
        rw [if_neg h1, if_neg h2, if_neg h3, if_neg h4, if_neg h5, if_neg h6]

/-- C10: the type-token mapper is idempotent: a second application leaves
any first output unchanged — expanded shorthands, recursively expanded
array forms, and passthrough tokens are all fixed points. -/
theorem C10_typeMapper_idem (t : String) :
    typeMapper (typeMapper t) = typeMapper t := by
  show (⟨typeMapperL (typeMapperL t.data)⟩ : String) = ⟨typeMapperL t.data⟩
  rw [typeMapperL_idem t.data.length t.data (Nat.le_refl _)]

/-! ### Character-level case lemmas (towards C6 and C8) -/

/-- `UInt32` order agrees with the order of the underlying naturals. -/
theorem uint32_le_iff (a b : UInt32) : a ≤ b ↔ a.toNat ≤ b.toNat := by
  simp [UInt32.le_def, BitVec.le_def, UInt32.toNat]

/-- `Char.isLower` via code points. -/
theorem char_isLower_iff (c : Char) :
    c.isLower = true ↔ 97 ≤ c.toNat ∧ c.toNat ≤ 122 := by
  unfold Char.isLower
  simp only [Bool.and_eq_true, decide_eq_true_eq, ge_iff_le]
  rw [uint32_le_iff, uint32_le_iff]
  unfold Char.toNat
  constructor
  · rintro ⟨h1, h2⟩
    exact ⟨by simpa using h1, by simpa using h2⟩
  · rintro ⟨h1, h2⟩
    exact ⟨by simpa using h1, by simpa using h2⟩

/-- `Char.isUpper` via code points. -/
theorem char_isUpper_iff (c : Char) :
    c.isUpper = true ↔ 65 ≤ c.toNat ∧ c.toNat ≤ 90 := by
  unfold Char.isUpper
  simp only [Bool.and_eq_true, decide_eq_true_eq, ge_iff_le]
  rw [uint32_le_iff, uint32_le_iff]
  unfold Char.toNat
  constructor
  · rintro ⟨h1, h2⟩
    exact ⟨by simpa using h1, by simpa using h2⟩
  · rintro ⟨h1, h2⟩
    exact ⟨by simpa using h1, by simpa using h2⟩

/-- `Char.ofNat` round-trips on valid code points. -/
theorem ofNat_toNat_valid {n : Nat} (h : n.isValidChar) :
    (Char.ofNat n).toNat = n := by
  rw [Char.ofNat, dif_pos h]
  rfl

/-- `toUpper` fixes every character that is not a lowercase letter. -/
theorem toUpper_eq_self_of_not_lower {c : Char} (h : c.isLower = false) :
    c.toUpper = c := by
  unfold Char.toUpper
  rw [if_neg]
  intro hc
  rw [show (c.isLower = false) ↔ ¬(c.isLower = true) from by simp] at h
  exact h ((char_isLower_iff c).mpr ⟨hc.1, hc.2⟩)

/-- `toUpper` subtracts 32 from a lowercase code point. -/
theorem toUpper_toNat_of_lower {c : Char} (h : c.isLower = true) :
    (c.toUpper).toNat = c.toNat - 32 := by
  obtain ⟨h1, h2⟩ := (char_isLower_iff c).mp h
  unfold Char.toUpper
  rw [if_pos ⟨h1, h2⟩]
  exact ofNat_toNat_valid (Or.inl (by omega))

/-- `toUpper` of a lowercase letter is an uppercase letter. -/
theorem toUpper_isUpper_of_lower {c : Char} (h : c.isLower = true) :
    (c.toUpper).isUpper = true := by
  obtain ⟨h1, h2⟩ := (char_isLower_iff c).mp h
  rw [char_isUpper_iff, toUpper_toNat_of_lower h]
  omega

/-- `toUpper` maps identifier characters to identifier characters. -/
theorem isIdentChar_toUpper {c : Char} (h : isIdentChar c = true) :
    isIdentChar c.toUpper = true := by
  cases hl : c.isLower with
  | false => rw [toUpper_eq_self_of_not_lower hl]; exact h
  | true =>
    have hu := toUpper_isUpper_of_lower hl
    simp [isIdentChar, Char.isAlpha, hu]

/-- An uppercase letter is not a `toPascalCase` separator. -/
theorem isUpper_not_pascalSep {d : Char} (h : d.isUpper = true) :
    pascalSep d = false := by
  cases hps : pascalSep d with
  | false => rfl
  | true =>
    exfalso
    unfold pascalSep isSpaceJS at hps
    simp only [Bool.or_eq_true, decide_eq_true_eq] at hps
    have hd : d = '-' ∨ d = '_' ∨ d = ' ' ∨ d = '\t' ∨ d = '\n' ∨ d = '\x0d' := by
      tauto
    rcases hd with rfl | rfl | rfl | rfl | rfl | rfl <;>
      exact absurd h (by decide)

/-- `toUpper` never creates a `toPascalCase` separator. -/
theorem toUpper_not_pascalSep {c : Char} (h : pascalSep c = false) :
    pascalSep c.toUpper = false := by
  cases hl : c.isLower with
  | false => rw [toUpper_eq_self_of_not_lower hl]; exact h
  | true => exact isUpper_not_pascalSep (toUpper_isUpper_of_lower hl)

/-! ### Split and sanitizer lemmas (towards C6) -/

/-- Every character inside any chunk of `chunksByAux` fails the separator
test (provided the accumulator already does). -/
theorem chunksByAux_mem_not_sep (sep : Char → Bool) :
    ∀ (l acc : List Char), (∀ a ∈ acc, sep a = false) →
      ∀ chunk ∈ chunksByAux sep acc l, ∀ c ∈ chunk, sep c = false := by
  intro l
  induction l with
  | nil =>
    intro acc hacc chunk hchunk c hc
    unfold chunksByAux at hchunk
    split at hchunk
    · simp at hchunk
    · simp at hchunk
      subst hchunk
      exact hacc c (by simpa using hc)
  | cons d rest ih =>
    intro acc hacc chunk hchunk c hc
    unfold chunksByAux at hchunk
    split at hchunk
    · split at hchunk
      · exact ih [] (by simp) chunk hchunk c hc
      · rcases List.mem_cons.mp hchunk with h1 | h1
        · subst h1
          exact hacc c (by simpa using hc)
        · exact ih [] (by simp) chunk h1 c hc
    · refine ih (d :: acc) ?_ chunk hchunk c hc
      intro a ha
      rcases List.mem_cons.mp ha with rfl | ha
      · rename_i hd
        simpa using hd
      · exact hacc a ha

/-- Every character inside any chunk of `chunksBy` fails the separator. -/
theorem chunksBy_mem_not_sep (sep : Char → Bool) (l : List Char) :
    ∀ chunk ∈ chunksBy sep l, ∀ c ∈ chunk, sep c = false :=
  chunksByAux_mem_not_sep sep l [] (by simp)

/-- On separator-free input the splitter returns the one whole run. -/
theorem chunksByAux_no_sep (sep : Char → Bool) :
    ∀ (l acc : List Char), (∀ c ∈ l, sep c = false) →
      chunksByAux sep acc l =
        if acc.isEmpty && l.isEmpty then [] else [acc.reverse ++ l] := by
  intro l
  induction l with
  | nil =>
    intro acc _
    unfold chunksByAux
    cases acc <;> simp
  | cons d rest ih =>
    intro acc h
    unfold chunksByAux
    rw [if_neg (by simp [h d (List.mem_cons_self d rest)])]
    rw [ih (d :: acc) (fun c hc => h c (List.mem_cons_of_mem d hc))]
    simp

/-- On separator-free non-empty input, `chunksBy` yields the whole list. -/
theorem chunksBy_no_sep (sep : Char → Bool) (l : List Char)
    (h : ∀ c ∈ l, sep c = false) (hne : l ≠ []) :
    chunksBy sep l = [l] := by
  unfold chunksBy
  rw [chunksByAux_no_sep sep l [] h]
  cases l with
  | nil => exact absurd rfl hne
  | cons c rest => simp

/-- Whitespace-free lists are already trimmed. -/
theorem trimL_of_no_space (l : List Char)
    (h : ∀ c ∈ l, isSpaceJS c = false) : trimL l = l := by
  apply trimL_of_parts
  · cases l with
    | nil => rfl
    | cons c rest =>
      rw [List.dropWhile_cons,
        if_neg (by simp [h c (List.mem_cons_self c rest)])]
  · unfold List.rdropWhile
    rw [show l.reverse.dropWhile isSpaceJS = l.reverse from ?_, List.reverse_reverse]
    cases hr : l.reverse with
    | nil => rfl
    | cons c rest =>
      have hc : c ∈ l := by
        rw [← List.mem_reverse, hr]
        exact List.mem_cons_self c rest
      rw [List.dropWhile_cons, if_neg (by simp [h c hc])]

/-- A word containing an uppercase letter is not a reserved word. -/
theorem not_reserved_of_mem_upper {w : List Char} {c : Char}
    (hc : c ∈ w) (hu : c.isUpper = true) :
    TS_RESERVED.contains ⟨w⟩ = false := by
  cases hcon : TS_RESERVED.contains ⟨w⟩ with
  | false => rfl
  | true =>
    exfalso
    have hmem : (⟨w⟩ : String) ∈ TS_RESERVED := by
      simpa using hcon
    have hall : ∀ s ∈ TS_RESERVED, s.data.all (fun ch => !ch.isUpper) = true := by
      decide
    have hw := hall _ hmem
    simp only [List.all_eq_true] at hw
    have := hw c hc
    simp [hu] at this

/-- Every character of a `toPascalCaseL` output fails `pascalSep`. -/
theorem toPascalCaseL_not_sep {x : List Char} {c : Char}
    (hc : c ∈ toPascalCaseL x) : pascalSep c = false := by
  unfold toPascalCaseL at hc
  simp only [List.mem_flatten, List.mem_map] at hc
  obtain ⟨seg, ⟨chunk, hchunk, rfl⟩, hcseg⟩ := hc
  cases chunk with
  | nil => simp [upperFirstL] at hcseg
  | cons h0 t =>
    have hmem := chunksBy_mem_not_sep pascalSep x _ hchunk
    rcases List.mem_cons.mp hcseg with rfl | ht
    · exact toUpper_not_pascalSep (hmem h0 (List.mem_cons_self h0 t))
    · exact hmem c (List.mem_cons_of_mem h0 ht)

/-- Characters of a `sanitizeTypeNameL` output: identifier characters
that are not `toPascalCase` separators. -/
theorem safePart_chars {x : List Char} {c : Char} (hc : c ∈ safePart x) :
    isIdentChar c = true ∧ pascalSep c = false := by
  have htype : ∀ d ∈ "Type".data, isIdentChar d = true ∧ pascalSep d = false := by
    decide
  unfold safePart at hc
  split at hc
  · exact htype c hc
  · rw [List.mem_filter] at hc
    exact ⟨hc.2, toPascalCaseL_not_sep hc.1⟩

/-- Characters of a `sanitizeTypeNameL` output: identifier characters
that are not `toPascalCase` separators. -/
theorem sanitizeTypeNameL_chars {x : List Char} {c : Char}
    (hc : c ∈ sanitizeTypeNameL x) :
    isIdentChar c = true ∧ pascalSep c = false := by
  have htype : ∀ d ∈ "Type".data, isIdentChar d = true ∧ pascalSep d = false := by
    decide
  unfold sanitizeTypeNameL at hc
  split at hc
  · rcases List.mem_append.mp hc with h1 | h1
    · exact safePart_chars h1
    · exact htype c h1
  · exact safePart_chars hc

/-- A `sanitizeTypeNameL` output is never a reserved word. -/
theorem sanitizeTypeNameL_not_reserved (x : List Char) :
    TS_RESERVED.contains ⟨sanitizeTypeNameL x⟩ = false := by
  unfold sanitizeTypeNameL
  split <;> rename_i hres
  · apply not_reserved_of_mem_upper (c := 'T')
    · exact List.mem_append.mpr (Or.inr (by decide))
    · decide
  · simpa using hres

/-- The second application of `sanitizeTypeNameL` only capitalizes the
first character of the first output. -/
theorem sanitizeTypeNameL_twice (x : List Char) :
    sanitizeTypeNameL (sanitizeTypeNameL x) =
      upperFirstL (sanitizeTypeNameL x) := by
  cases hy : sanitizeTypeNameL x with
  | nil => exact absurd hy (sanitizeTypeNameL_ne_nil x)
  | cons h0 t =>
    have hchars : ∀ c ∈ h0 :: t, isIdentChar c = true ∧ pascalSep c = false := by
      intro c hc
      exact sanitizeTypeNameL_chars (x := x) (hy ▸ hc)
    have hspace : ∀ c ∈ h0 :: t, isSpaceJS c = false := by
      intro c hc
      have := (hchars c hc).2
      unfold pascalSep at this
      simp only [Bool.or_eq_false_iff] at this
      exact this.2
    have hsep : ∀ c ∈ h0 :: t, pascalSep c = false :=
      fun c hc => (hchars c hc).2
    have hident : ∀ c ∈ h0 :: t, isIdentChar c = true :=
      fun c hc => (hchars c hc).1
    have hpascal : toPascalCaseL (h0 :: t) = upperFirstL (h0 :: t) := by
      unfold toPascalCaseL
      rw [chunksBy_no_sep pascalSep (h0 :: t) hsep (by simp)]
      simp
    have hfilter : (upperFirstL (h0 :: t)).filter isIdentChar =
        upperFirstL (h0 :: t) := by
      rw [List.filter_eq_self]
      intro a ha
      simp only [upperFirstL] at ha
      rcases List.mem_cons.mp ha with rfl | ha
      · exact isIdentChar_toUpper (hident h0 (List.mem_cons_self h0 t))
      · exact hident a (List.mem_cons_of_mem h0 ha)
    have hsafe : safePart (h0 :: t) = upperFirstL (h0 :: t) := by
      unfold safePart
      rw [trimL_of_no_space _ hspace, hpascal, hfilter]
      rw [if_neg (by simp [upperFirstL])]
    have hnores : TS_RESERVED.contains ⟨upperFirstL (h0 :: t)⟩ = false := by
      cases hl : h0.isLower with
      | true =>
        exact not_reserved_of_mem_upper (c := h0.toUpper)
          (by simp [upperFirstL]) (toUpper_isUpper_of_lower hl)
      | false =>
        have heq : upperFirstL (h0 :: t) = h0 :: t := by
          simp [upperFirstL, toUpper_eq_self_of_not_lower hl]
        rw [heq, ← hy]
        exact sanitizeTypeNameL_not_reserved x
    unfold sanitizeTypeNameL
    rw [hsafe, hnores]
    simp

/-- C6 counterexample: sanitization is not idempotent.  On `"#abc"` the
PascalCased first character `#` is then stripped, leaving the lowercase
`"abc"`; a second application capitalizes it to `"Abc"`. -/
theorem C6_sanitize_not_idem_cex :
    sanitizeTypeName (sanitizeTypeName "#abc") ≠ sanitizeTypeName "#abc" ∧
    sanitizeTypeName "#abc" = "abc" ∧
    sanitizeTypeName (sanitizeTypeName "#abc") = "Abc" := by
  refine ⟨?_, rfl, rfl⟩
  decide

/-- C6 amended: a second application of `sanitizeTypeName` capitalizes the
first character of the first output and changes nothing else; in
particular sanitization is idempotent exactly on the inputs whose
sanitized form does not start with a lowercase letter. -/
theorem C6_sanitize_second_capitalizes (x : String) :
    sanitizeTypeName (sanitizeTypeName x) =
      ⟨upperFirstL (sanitizeTypeName x).data⟩ ∧
    (((sanitizeTypeName x).data.headD ' ').isLower = false →
      sanitizeTypeName (sanitizeTypeName x) = sanitizeTypeName x) := by
  constructor
  · show (⟨sanitizeTypeNameL (sanitizeTypeName x).data⟩ : String) = _
    rw [show (sanitizeTypeName x).data = sanitizeTypeNameL x.data from rfl]
    rw [sanitizeTypeNameL_twice x.data]
  · intro h
    show (⟨sanitizeTypeNameL (sanitizeTypeName x).data⟩ : String) = _
    rw [show (sanitizeTypeName x).data = sanitizeTypeNameL x.data from rfl]
    rw [sanitizeTypeNameL_twice x.data]
    cases hy : sanitizeTypeNameL x.data with
    | nil => exact absurd hy (sanitizeTypeNameL_ne_nil x.data)
    | cons h0 t =>
      rw [show (sanitizeTypeName x).data = sanitizeTypeNameL x.data from rfl,
        hy] at h
      simp only [List.headD_cons] at h
      show (⟨upperFirstL (h0 :: t)⟩ : String) = sanitizeTypeName x
      simp only [upperFirstL, toUpper_eq_self_of_not_lower h]
      show (⟨h0 :: t⟩ : String) = ⟨sanitizeTypeNameL x.data⟩
      rw [hy]

/-- Witness for the idempotence part of C6 amended at input `"User"`,
whose sanitized form starts with an uppercase letter. -/
theorem C6_sanitize_second_capitalizes_witness :
    ((sanitizeTypeName "User").data.headD ' ').isLower = false ∧
    sanitizeTypeName (sanitizeTypeName "User") = sanitizeTypeName "User" :=
  ⟨by decide, (C6_sanitize_second_capitalizes "User").2 (by decide)⟩

/-! ### Property-name validity (towards C8) -/

/-- A non-digit identifier character may start an identifier. -/
theorem identStart_of_ident_not_digit {c : Char}
    (h1 : isIdentChar c = true) (h2 : c.isDigit = false) :
    isIdentStart c = true := by
  unfold isIdentChar at h1
  unfold isIdentStart
  simp only [h2, Bool.false_or, Bool.or_false] at h1
  simpa using h1

/-- All characters surviving the `propCleaned` filter are identifier
characters. -/
theorem propCleaned_chars {raw : List Char} :
    ∀ c ∈ propCleaned raw, isIdentChar c = true := by
  intro c hc
  exact (List.mem_filter.mp hc).2

/-- The fallback stage is never empty. -/
theorem propCleaned1_ne_nil (raw : List Char) : propCleaned1 raw ≠ [] := by
  unfold propCleaned1
  split
  · decide
  · assumption

/-- All characters of the fallback stage are identifier characters. -/
theorem propCleaned1_chars {raw : List Char} :
    ∀ c ∈ propCleaned1 raw, isIdentChar c = true := by
  intro c hc
  unfold propCleaned1 at hc
  split at hc
  · have hP : ∀ d ∈ "prop".data, isIdentChar d = true := by decide
    exact hP c hc
  · exact propCleaned_chars c hc

/-- After the digit-prefix stage, the cleaned name is a valid
identifier. -/
theorem propCleaned2_valid (raw : List Char) :
    isValidIdentL (propCleaned2 raw) = true := by
  unfold propCleaned2
  split <;> rename_i hd
  · show (isIdentStart '_' && (propCleaned1 raw).all isIdentChar) = true
    simp only [Bool.and_eq_true]
    refine ⟨by decide, ?_⟩
    rw [List.all_eq_true]
    intro c hc
    exact propCleaned1_chars c hc
  · cases hp : propCleaned1 raw with
    | nil => exact absurd hp (propCleaned1_ne_nil raw)
    | cons c rest =>
      rw [hp] at hd
      simp only [List.headD_cons] at hd
      show (isIdentStart c && rest.all isIdentChar) = true
      simp only [Bool.and_eq_true]
      constructor
      · refine identStart_of_ident_not_digit ?_ (by simpa using hd)
        exact propCleaned1_chars c (hp ▸ List.mem_cons_self c rest)
      · rw [List.all_eq_true]
        intro a ha
        exact propCleaned1_chars a (hp ▸ List.mem_cons_of_mem c ha)

/-- A word ending in an underscore is not a reserved word. -/
theorem not_reserved_of_last_underscore (w : List Char) :
    TS_RESERVED.contains ⟨w ++ ['_']⟩ = false := by
  cases hcon : TS_RESERVED.contains ⟨w ++ ['_']⟩ with
  | false => rfl
  | true =>
    exfalso
    have hmem : (⟨w ++ ['_']⟩ : String) ∈ TS_RESERVED := by simpa using hcon
    have hall : ∀ s ∈ TS_RESERVED, s.data.getLast? ≠ some '_' := by decide
    exact hall _ hmem (by simp)

/-- Appending a character keeps identifier validity when the character is
an identifier character. -/
theorem isValidIdentL_append_ident {l : List Char} {c : Char}
    (hl : isValidIdentL l = true) (hc : isIdentChar c = true) :
    isValidIdentL (l ++ [c]) = true := by
  cases l with
  | nil => exact absurd hl (by decide)
  | cons h0 t =>
    show (isIdentStart h0 && (t ++ [c]).all isIdentChar) = true
    have hl' : (isIdentStart h0 && t.all isIdentChar) = true := hl
    simp only [Bool.and_eq_true, List.all_append, List.all_cons,
      List.all_nil, Bool.and_true] at hl' ⊢
    exact ⟨hl'.1, hl'.2, hc⟩

/-- `sanitizePropNameL` always produces a valid, non-reserved
identifier. -/
theorem sanitizePropNameL_spec (raw : List Char) :
    isValidIdentL (sanitizePropNameL raw) = true ∧
      TS_RESERVED.contains ⟨sanitizePropNameL raw⟩ = false := by
  unfold sanitizePropNameL
  split <;> rename_i hres
  · constructor
    · exact isValidIdentL_append_ident (propCleaned2_valid raw) (by decide)
    · exact not_reserved_of_last_underscore _
  · exact ⟨propCleaned2_valid raw, by simpa using hres⟩

set_option maxHeartbeats 1000000 in
/-- `sanitizePropName` always produces a valid, non-reserved
identifier. -/
theorem sanitizePropName_spec (raw : String) :
    isValidIdent (sanitizePropName raw) = true ∧
      TS_RESERVED.contains (sanitizePropName raw) = false := by
  have h := sanitizePropNameL_spec raw.data
  exact ⟨h.1, h.2⟩

/-- A pair headed by a sanitized name witnesses the name extraction. -/
theorem exists_name_of_pair (z : String) (r : Option Bool)
    {nr : String × Option Bool} (h2 : (sanitizePropName z, r) = nr) :
    ∃ b, nr.1 = sanitizePropName b :=
  ⟨z, by rw [← h2]⟩

/-- Every name returned by `parsePropNameL` is a sanitized name. -/
theorem parsePropNameL_ok_name {raw : List Char} {opts : GenOptions}
    {nr : String × Option Bool}
    (h : parsePropNameL raw opts = .ok nr) :
    ∃ b, nr.1 = sanitizePropName b := by
  simp only [parsePropNameL] at h
  repeat' split at h
  all_goals try (exfalso; exact Except.noConfusion h)
  all_goals injection h with h2
  all_goals exact exists_name_of_pair _ _ h2

/-- Every property produced by the legacy chunk parser carries a
sanitized name. -/
theorem parseChunkOld_ok_name {opts : GenOptions} {i : Nat}
    {chunk : List Char} {p : Prop'}
    (h : parseChunkOld opts i chunk = .ok p) :
    ∃ b, p.name = sanitizePropName b := by
  simp only [parseChunkOld] at h
  split at h
  · exfalso
    exact Except.noConfusion h
  · split at h <;> rename_i heq
    · exfalso
      exact Except.noConfusion h
    · obtain ⟨b, hb⟩ := parsePropNameL_ok_name heq
      injection h with h2
      refine ⟨b, ?_⟩
      rw [← h2]
      exact hb

/-- Every property produced by the modern token parser carries a
sanitized name. -/
theorem parseTokenNew_ok_name {opts : GenOptions} {i : Nat}
    {token : List Char} {p : Prop'}
    (h : parseTokenNew opts i token = .ok p) :
    ∃ b, p.name = sanitizePropName b := by
  simp only [parseTokenNew] at h
  split at h
  · exfalso
    exact Except.noConfusion h
  · split at h
    · exfalso
      exact Except.noConfusion h
    · split at h <;> rename_i heq
      · exfalso
        exact Except.noConfusion h
      · obtain ⟨b, hb⟩ := parsePropNameL_ok_name heq
        injection h with h2
        refine ⟨b, ?_⟩
        rw [← h2]
        exact hb

/-- Every element of a successful `mapExceptIdx` comes from a successful
call of the supplied parser. -/
theorem mapExceptIdx_ok_mem {f : Nat → List Char → Except DSLError Prop'} :
    ∀ {xs : List (List Char)} {i : Nat} {ys : List Prop'},
      mapExceptIdx f i xs = .ok ys → ∀ y ∈ ys, ∃ j x, f j x = .ok y := by
  intro xs
  induction xs with
  | nil =>
    intro i ys h y hy
    simp only [mapExceptIdx] at h
    obtain rfl : ([] : List Prop') = ys := by simpa using h
    simp at hy
  | cons x xs ih =>
    intro i ys h y hy
    simp only [mapExceptIdx] at h
    split at h <;> rename_i hfx
    · exfalso
      exact Except.noConfusion h
    · split at h <;> rename_i hrec
      · exfalso
        exact Except.noConfusion h
      · obtain rfl : _ = ys := Except.ok.inj h
        rcases List.mem_cons.mp hy with rfl | hy'
        · exact ⟨i, x, hfx⟩
        · exact ih hrec y hy'

/-- C8: on every successful parse, every property name in the model
matches `^[A-Za-z_$][A-Za-z0-9_$]*$` and is not a reserved word. -/
theorem C8_prop_names_valid (dsl : String) (opts : GenOptions)
    (m : ParsedModel) (h : parseDSL dsl opts = .ok m) :
    ∀ p ∈ m.props, isValidIdent p.name = true ∧
      TS_RESERVED.contains p.name = false := by
  intro p hp
  have hname : ∃ b, p.name = sanitizePropName b := by
    simp only [parseDSL] at h
    repeat' split at h
    all_goals try (exfalso; exact Except.noConfusion h)
    all_goals
      rename_i hmap
      injection h with h2
      obtain ⟨j, x, hx⟩ := mapExceptIdx_ok_mem hmap p (by rw [← h2] at hp; simpa using hp)
      first
        | exact parseChunkOld_ok_name hx
        | exact parseTokenNew_ok_name hx
  obtain ⟨b, hb⟩ := hname
  rw [hb]
  exact sanitizePropName_spec b

/-- Witness for C8 at the concrete input `User email:s`. -/
theorem C8_prop_names_valid_witness :
    isValidIdent "email" = true ∧ TS_RESERVED.contains "email" = false :=
  C8_prop_names_valid "User email:s" {}
    ⟨"User", [⟨"email", true, "string"⟩]⟩ rfl
    ⟨"email", true, "string"⟩ (by simp)

/-! ### Example-object lemmas (towards C7) -/

/-- `setKey` never changes the key list on update, and appends the fresh
key otherwise. -/
theorem keys_setKey (obj : List (String × JSValue)) (k : String)
    (v : JSValue) :
    (setKey obj k v).map Prod.fst =
      if (obj.map Prod.fst).contains k then obj.map Prod.fst
      else obj.map Prod.fst ++ [k] := by
  unfold setKey
  split <;> rename_i hcon
  · rw [List.map_map]
    apply List.map_congr_left
    intro kv _
    by_cases hk : kv.1 = k
    · simp [hk]
    · simp [hk]
  · simp

/-- `setKey` does not affect lookups of other keys. -/
theorem lookupKey_setKey_ne {k k' : String} (hne : k' ≠ k) (v : JSValue) :
    ∀ obj, lookupKey k' (setKey obj k v) = lookupKey k' obj := by
  intro obj
  unfold setKey
  split <;> rename_i hcon
  · clear hcon
    induction obj with
    | nil => rfl
    | cons kv rest ih =>
      by_cases hk : kv.1 = k
      · simp only [List.map_cons, hk, if_pos, lookupKey]
        rw [if_neg (fun he => hne he.symm), if_neg (fun he => hne he.symm)]
        exact ih
      · simp only [List.map_cons, lookupKey]
        rw [if_neg hk]
        by_cases hk' : kv.1 = k'
        · rw [if_pos hk', if_pos hk']
        · rw [if_neg hk', if_neg hk']
          exact ih
  · clear hcon
    induction obj with
    | nil =>
      simp only [List.nil_append, lookupKey]
      rw [if_neg (fun he => hne he.symm)]
    | cons kv rest ih =>
      simp only [List.cons_append, lookupKey]
      by_cases hk' : kv.1 = k'
      · rw [if_pos hk', if_pos hk']
      · rw [if_neg hk', if_neg hk']
        exact ih

/-- Keys absent from the key list look up to nothing. -/
theorem lookupKey_eq_none_of_not_mem {k : String}
    {obj : List (String × JSValue)} (h : k ∉ obj.map Prod.fst) :
    lookupKey k obj = none := by
  induction obj with
  | nil => rfl
  | cons kv rest ih =>
    simp only [List.map_cons, List.mem_cons, not_or] at h
    simp only [lookupKey]
    rw [if_neg (fun he => h.1 he.symm)]
    exact ih h.2

/-- Looking up the key just set yields the new value. -/
theorem lookupKey_setKey_self (obj : List (String × JSValue)) (k : String)
    (v : JSValue) :
    lookupKey k (setKey obj k v) = some v := by
  unfold setKey
  split <;> rename_i hcon
  · have hmem : k ∈ obj.map Prod.fst := by simpa using hcon
    clear hcon
    induction obj with
    | nil => simp at hmem
    | cons kv rest ih =>
      by_cases hk : kv.1 = k
      · simp only [List.map_cons, lookupKey]
        rw [if_pos hk]
        rw [if_pos rfl]
      · simp only [List.map_cons, lookupKey]
        rw [if_neg hk, if_neg hk]
        apply ih
        simp only [List.map_cons, List.mem_cons] at hmem
        rcases hmem with he | hm
        · exact absurd he.symm hk
        · exact hm
  · have hnot : k ∉ obj.map Prod.fst := by simpa using hcon
    clear hcon
    induction obj with
    | nil => simp [lookupKey]
    | cons kv rest ih =>
      simp only [List.map_cons, List.mem_cons, not_or] at hnot
      simp only [List.cons_append, lookupKey]
      rw [if_neg (fun he => hnot.1 he.symm)]
      exact ih hnot.2

/-- Keys named by no property of `props` are untouched by the example
loop. -/
theorem genExAux_untouched (now : String) :
    ∀ (props : List Prop') (obj : List (String × JSValue)) (k : String),
      (∀ r ∈ props, r.name ≠ k) →
      lookupKey k (genExAux now obj props) = lookupKey k obj := by
  intro props
  induction props with
  | nil => intro obj k _; rfl
  | cons q rest ih =>
    intro obj k hk
    simp only [genExAux]
    rw [ih _ k (fun r hr => hk r (List.mem_cons_of_mem q hr))]
    by_cases hq : q.isRequired
    · rw [if_pos hq]
      exact lookupKey_setKey_ne
        (fun he => hk q (List.mem_cons_self q rest) he.symm) _ obj
    · rw [if_neg hq]

/-- Every key of the example object is the name of some required
property. -/
theorem genExAux_keys_origin (now : String) :
    ∀ (props : List Prop') (obj : List (String × JSValue)) (k : String),
      k ∈ (genExAux now obj props).map Prod.fst →
      k ∈ obj.map Prod.fst ∨
        ∃ p, p ∈ props ∧ p.isRequired = true ∧ p.name = k := by
  intro props
  induction props with
  | nil =>
    intro obj k hk
    exact Or.inl hk
  | cons q rest ih =>
    intro obj k hk
    simp only [genExAux] at hk
    rcases ih _ k hk with hmem | ⟨p, hp, hr, hn⟩
    · by_cases hq : q.isRequired
      · rw [if_pos hq, keys_setKey] at hmem
        split at hmem
        · exact Or.inl hmem
        · rcases List.mem_append.mp hmem with h1 | h1
          · exact Or.inl h1
          · refine Or.inr ⟨q, List.mem_cons_self q rest, by simpa using hq, ?_⟩
            exact (List.mem_singleton.mp h1).symm
      · rw [if_neg hq] at hmem
        exact Or.inl hmem
    · exact Or.inr ⟨p, List.mem_cons_of_mem q hp, hr, hn⟩

/-- With pairwise-distinct property names, the example object maps each
required property to its type default and omits each optional one. -/
theorem genExAux_lookup_nodup (now : String) :
    ∀ (props : List Prop') (obj : List (String × JSValue)),
      (props.map Prop'.name).Nodup →
      (∀ q ∈ props, q.name ∉ obj.map Prod.fst) →
      ∀ p ∈ props,
        lookupKey p.name (genExAux now obj props) =
          if p.isRequired then some (defaultValueFor now p.tsType)
          else none := by
  intro props
  induction props with
  | nil =>
    intro obj _ _ p hp
    simp at hp
  | cons q rest ih =>
    intro obj hnodup hdisj p hp
    have hnodup' := hnodup
    simp only [List.map_cons, List.nodup_cons] at hnodup'
    rcases List.mem_cons.mp hp with rfl | hp'
    · simp only [genExAux]
      rw [genExAux_untouched now rest _ p.name ?_]
      · by_cases hq : p.isRequired
        · rw [if_pos hq, if_pos hq]
          exact lookupKey_setKey_self obj p.name _
        · rw [if_neg hq, if_neg hq]
          exact lookupKey_eq_none_of_not_mem
            (hdisj p (List.mem_cons_self p rest))
      · intro r hr he
        exact hnodup'.1 (he ▸ List.mem_map_of_mem Prop'.name hr)
    · simp only [genExAux]
      refine ih _ hnodup'.2 ?_ p hp'
      intro r hr
      by_cases hq : q.isRequired
      · rw [if_pos hq, keys_setKey]
        split
        · exact hdisj r (List.mem_cons_of_mem q hr)
        · have h1 := hdisj r (List.mem_cons_of_mem q hr)
          have h2 : r.name ≠ q.name := by
            intro he
            exact hnodup'.1 (he ▸ List.mem_map_of_mem Prop'.name hr)
          simp only [List.mem_append, List.mem_singleton, not_or]
          exact ⟨h1, h2⟩
      · rw [if_neg hq]
        exact hdisj r (List.mem_cons_of_mem q hr)

/-- C7 counterexample: a parsed model may carry two properties with the
same name, one required and one optional; the example object then contains
a key for the *optional* property (because it equally names the required
one), contradicting the claim read over every property. -/
theorem C7_optional_key_cex :
    parseDSL "User a:s a?:n" { optionalByDefault := some false } =
      Except.ok { typeName := "User",
                  props := [{ name := "a", isRequired := true, tsType := "string" },
                            { name := "a", isRequired := false, tsType := "number" }] } ∧
    ({ name := "a", isRequired := false, tsType := "number" } : Prop') ∈
      [({ name := "a", isRequired := true, tsType := "string" } : Prop'),
       { name := "a", isRequired := false, tsType := "number" }] ∧
    (generateExample
        [{ name := "a", isRequired := true, tsType := "string" },
         { name := "a", isRequired := false, tsType := "number" }]
        "NOW").map Prod.fst = ["a"] := by
  refine ⟨rfl, by simp, rfl⟩

/-- C7 amended: every key of the example object is the name of some
required property (so optional properties never *contribute* a key); and
whenever the property names of the model are pairwise distinct, the
example object maps each required property to its type-determined default
value and contains no key for any optional property. -/
theorem C7_example_required_only (props : List Prop') (now : String) :
    (∀ k, k ∈ (generateExample props now).map Prod.fst →
      ∃ p, p ∈ props ∧ p.isRequired = true ∧ p.name = k) ∧
    ((props.map Prop'.name).Nodup →
      ∀ p ∈ props,
        lookupKey p.name (generateExample props now) =
          if p.isRequired then some (defaultValueFor now p.tsType)
          else none) := by
  constructor
  · intro k hk
    rcases genExAux_keys_origin now props [] k hk with hmem | h
    · simp at hmem
    · exact h
  · intro hnodup p hp
    exact genExAux_lookup_nodup now props [] hnodup (by simp) p hp

/-- Witness for C7 amended on the parse of `User email:s isAdmin?:b`:
the required `email` maps to the empty-string default and the optional
`isAdmin` is absent. -/
theorem C7_example_required_only_witness :
    (([{ name := "email", isRequired := true, tsType := "string" },
       { name := "isAdmin", isRequired := false, tsType := "boolean" }].map
        Prop'.name).Nodup) ∧
    lookupKey "isAdmin"
      (generateExample
        [{ name := "email", isRequired := true, tsType := "string" },
         { name := "isAdmin", isRequired := false, tsType := "boolean" }]
        "NOW") = none ∧
    lookupKey "email"
      (generateExample
        [{ name := "email", isRequired := true, tsType := "string" },
         { name := "isAdmin", isRequired := false, tsType := "boolean" }]
        "NOW") = some (JSValue.str "") ∧
    (∃ p, p ∈ [({ name := "email", isRequired := true, tsType := "string" } : Prop'),
               { name := "isAdmin", isRequired := false, tsType := "boolean" }] ∧
      p.isRequired = true ∧ p.name = "email") := by
  refine ⟨by decide, ?_, ?_, ?_⟩
  · exact (C7_example_required_only _ "NOW").2 (by decide)
      ⟨"isAdmin", false, "boolean"⟩ (by simp)
  · exact (C7_example_required_only _ "NOW").2 (by decide)
      ⟨"email", true, "string"⟩ (by simp)
  · exact (C7_example_required_only _ "NOW").1 "email" (by decide)

end Autotyper
